import Mathlib

/-!
Verification of the Vjer / cicd-scripts step-configuration and execution engine.

This file gives a shallow embedding of the configuration-resolution and step
dispatch engine of the repository (the layered `ConfigSection` store, the
`ProjectConfig` loader, the release step-list assembly, the action runners,
the handler dispatcher, and the version-file patch/restore routine), and
proves the specified properties about it.

Source correspondence (file : symbol):
* `src/vjer/utils.py` : `ConfigSection`, `ProjectConfig._load_config`,
  `ProjectConfig._get_phase_step`, `ProjectConfig.write`, `VjerStep.__getattr__`,
  `VjerStep._execute`, `VjerStep.update_version_files`, `VjerAction.execute`
* `src/cicd-scripts/utils.py` : `ConfigSection`, `ProjectConfig.__init__`,
  `ProjectConfig._get_phase_step`, `CICDStep.__getattr__`, `CICDStep._execute`,
  `CICDAction.execute`
* `src/vjer/build.py` : `BuildStep.pre` / `BuildStep.always_post`

Python/YAML data values are modelled by the inductive type `Value`; mappings
(`dict`/`DotMap`) by association lists with first-match lookup; the process
filesystem by a function from path names to optional file contents.
-/

/-- A Python/YAML value as manipulated by the engine: `None`, booleans,
integers, strings, lists and string-keyed mappings (`dict`/`DotMap`). -/
inductive Value where
  | vnone : Value
  | vbool (b : Bool) : Value
  | vint (n : Int) : Value
  | vstr (s : String) : Value
  | vlist (l : List Value) : Value
  | vmap (m : List (String × Value)) : Value

/-- Python truthiness of a `Value` (`bool(x)`): `None`/`False`/`0`/empty
string/empty list/empty mapping are falsy, everything else truthy. -/
def truthy : Value → Bool
  | .vnone => false
  | .vbool b => b
  | .vint n => !(n == 0)
  | .vstr s => !(s == "")
  | .vlist l => !l.isEmpty
  | .vmap m => !m.isEmpty

/-- Truthiness of an optional value: a key that is absent reads as an empty
`DotMap`, which is falsy. -/
def truthyOpt : Option Value → Bool
  | some v => truthy v
  | none => false

/-- Mapping lookup (`d[k]` / `d.get(k)`): the first entry with the given key. -/
def alistGet (m : List (String × Value)) (k : String) : Option Value :=
  match m.find? (fun e => e.1 == k) with
  | some e => some e.2
  | none => none

/-- A step of a phase's `steps` list: an open mapping of fields
(`type`, `name`, `ignore`, type-specific fields). -/
abbrev Step := List (String × Value)

/-- The two layers of a configuration section
(`ConfigSection._values` / `ConfigSection._defaults`,
`src/vjer/utils.py:122-199`, `src/cicd-scripts/utils.py:270-346`). -/
structure ConfigSection where
  values : List (String × Value)
  defaults : List (String × Value)

/-- The per-kind expansion applied by `ConfigSection.__getattr__`
(`src/vjer/utils.py:142-153`): lists expand element-wise, mappings expand each
entry value, strings are expanded, other values returned raw.  The expander
itself (batcave's `Expander.expand`) is an external collaborator, abstracted
as `exp`. -/
def csResolve (exp : Value → Value) : Value → Value
  | .vlist l => .vlist (l.map exp)
  | .vmap m => .vmap (m.map (fun e => (e.1, exp e.2)))
  | .vstr s => exp (.vstr s)
  | v => v

/-- `ConfigSection.__getattr__` (`src/vjer/utils.py:142-153`,
`src/cicd-scripts/utils.py:290-301`): look the attribute up in `_values`,
then in `_defaults`; the first hit is expanded and returned; a miss in both
layers raises `AttributeError`, modelled by `none`. -/
def csGetattr (exp : Value → Value) (cs : ConfigSection) (attr : String) : Option Value :=
  match alistGet cs.values attr with
  | some v => some (csResolve exp v)
  | none =>
    match alistGet cs.defaults attr with
    | some v => some (csResolve exp v)
    | none => none

/-- The configuration-load error taxonomy (`ConfigurationError`,
`src/vjer/utils.py:63-73`, `src/cicd-scripts/utils.py:97-107`). -/
inductive ConfigError where
  | configFileNotFound : ConfigError
  | badFormat : ConfigError
  | invalidSchema (found : Value) (expected : List Int) : ConfigError

/-- The supported schema list of the vjer generation
(`_VALID_SCHEMAS`, `src/vjer/utils.py:45`). -/
def vjerValidSchemas : List Int := [3]

/-- The supported schema list of the cicd-scripts generation
(`_VALID_SCHEMAS`, `src/cicd-scripts/utils.py:59`). -/
def cicdValidSchemas : List Int := [1]

/-- The known configuration sections (`_CONFIG_SECTIONS`,
`src/vjer/utils.py:37`, `src/cicd-scripts/utils.py:58`). -/
def configSectionNames : List String :=
  ["project", "test", "build", "deploy", "rollback", "release"]

/-- View a parsed YAML document as a mapping, the way `DotMap(yaml_load(f))`
does: a non-mapping result (including `None` for an empty file) gives an
empty mapping. -/
def toDotMap : Value → List (String × Value)
  | .vmap m => m
  | _ => []

/-- `DotMap.__ior__` / `dict.update`: entries of `b` override entries of `a`
with the same key; other entries of `a` are kept. -/
def dmUnion (a b : List (String × Value)) : List (String × Value) :=
  a.filter (fun e => !(b.any (fun e2 => e2.1 == e.1))) ++ b

/-- Python `==` between a value and an `int` literal (used by
`yaml_as_dict.schema not in _VALID_SCHEMAS`): an int compares numerically,
a bool compares as 0/1, anything else is unequal. -/
def pyEqInt : Value → Int → Bool
  | .vint m, n => m == n
  | .vbool b, n => (if b then (1 : Int) else 0) == n
  | _, _ => false

/-- Membership of the schema value in the supported-schema list. -/
def schemaSupported (valid : List Int) (v : Value) : Bool :=
  valid.any (fun n => pyEqInt v n)

/-- The result of a successful configuration load: the accepted schema value
and, per known section present in the document, that section's mapping
(merged into the section's `values` layer). -/
structure LoadedConfig where
  schema : Value
  sections : List (String × List (String × Value))

/-- The schema value seen by the loader: the document mapping merged over the
seed `DotMap(schema=0)` (`src/vjer/utils.py:254-256`). -/
def effSchema (doc : Value) : Value :=
  (alistGet (dmUnion [("schema", Value.vint 0)] (toDotMap doc)) "schema").getD Value.vnone

/-- `ProjectConfig._load_config` (`src/vjer/utils.py:251-264`; the
cicd-scripts generation inlines the same logic at
`src/cicd-scripts/utils.py:379-392`): raise `CONFIG_FILE_NOT_FOUND` if the
file is absent; seed the parsed document with `schema=0`; raise `BAD_FORMAT`
if the merged mapping is empty; raise `INVALID_SCHEMA` if the schema value is
not supported; otherwise record the schema and merge each known section
present in the document. -/
def loadConfig (valid : List Int) (fileExists : Bool) (doc : Value) :
    Except ConfigError LoadedConfig :=
  if !fileExists then .error .configFileNotFound
  else
    let yamlAsDict := dmUnion [("schema", Value.vint 0)] (toDotMap doc)
    if yamlAsDict.isEmpty then .error .badFormat
    else
      let schemaVal := (alistGet yamlAsDict "schema").getD Value.vnone
      if !(schemaSupported valid schemaVal) then
        .error (.invalidSchema schemaVal valid)
      else
        .ok { schema := schemaVal,
              sections := configSectionNames.filterMap (fun s =>
                match alistGet yamlAsDict s with
                | some v => some (s, toDotMap v)
                | none => none) }

section LoaderLemmas

/-- A list ending in a cons cell is not empty. -/
theorem isEmpty_append_cons {α : Type} (l : List α) (x : α) (xs : List α) :
    (l ++ x :: xs).isEmpty = false := by
  cases l <;> rfl

/-- The seeded document mapping always contains the `schema` key, so it is
never empty. -/
theorem dmUnion_seed_not_isEmpty (m : List (String × Value)) :
    (dmUnion [("schema", Value.vint 0)] m).isEmpty = false := by
  cases m with
  | nil => rfl
  | cons x xs => exact isEmpty_append_cons _ x xs

end LoaderLemmas

/-- Claim C5: attribute lookup on a `ConfigSection` prefers the `values`
layer: whenever the key is present in `values` the result is the expansion of
the `values` entry (irrespective of the `defaults` layer); when the key is
absent from both layers lookup fails (`AttributeError`) instead of yielding a
silent `None`. -/
theorem configSection_lookup_precedence (exp : Value → Value) (cs : ConfigSection)
    (attr : String) :
    (∀ v, alistGet cs.values attr = some v →
      csGetattr exp cs attr = some (csResolve exp v))
    ∧ (alistGet cs.values attr = none → alistGet cs.defaults attr = none →
      csGetattr exp cs attr = none) := by
  constructor
  · intro v hv
    unfold csGetattr
    rw [hv]
  · intro hv hd
    unfold csGetattr
    rw [hv, hd]

/-- Witness for C5 at a concrete section: `values` wins over `defaults`, and
a key absent from both layers is an error. -/
theorem configSection_lookup_precedence_witness :
    csGetattr id ⟨[("clean", Value.vbool false)], [("clean", Value.vbool true)]⟩ "clean"
      = some (Value.vbool false)
    ∧ csGetattr id ⟨[("clean", Value.vbool false)], [("clean", Value.vbool true)]⟩ "missing"
      = none := by
  constructor
  · exact (configSection_lookup_precedence id
      ⟨[("clean", Value.vbool false)], [("clean", Value.vbool true)]⟩ "clean").1
      (Value.vbool false) rfl
  · exact (configSection_lookup_precedence id
      ⟨[("clean", Value.vbool false)], [("clean", Value.vbool true)]⟩ "missing").2 rfl rfl

/-- Claim C3 (code bug): an existing configuration file whose YAML parses to
an empty document does not fail with `BAD_FORMAT` as specified: the parsed
mapping is pre-seeded with `schema=0` (`src/vjer/utils.py:254`), so the
emptiness check guarding `BAD_FORMAT` can never fire and the load fails with
`INVALID_SCHEMA` (found=0) instead. -/
theorem loadConfig_empty_doc_invalid_schema :
    loadConfig vjerValidSchemas true Value.vnone
      = .error (.invalidSchema (Value.vint 0) vjerValidSchemas)
    ∧ loadConfig cicdValidSchemas true Value.vnone
      = .error (.invalidSchema (Value.vint 0) cicdValidSchemas) := by
  exact ⟨rfl, rfl⟩

/-- Claim C4: a document whose schema value is not in the supported set makes
the load fail with `INVALID_SCHEMA`; the result is an error, so no phase
section of the document is merged into a `ConfigSection` (sections are only
produced on the `.ok` path, after the schema check). -/
theorem loadConfig_invalid_schema_before_sections (valid : List Int) (doc : Value)
    (h : schemaSupported valid (effSchema doc) = false) :
    loadConfig valid true doc = .error (.invalidSchema (effSchema doc) valid) := by
  unfold loadConfig effSchema at *
  simp only [Bool.not_true, if_neg]
  rw [dmUnion_seed_not_isEmpty]
  simp only [Bool.false_eq_true, if_false, h]
  rfl

/-- Witness for C4: a document declaring `schema: 2` is rejected by the vjer
generation (which supports only schema 3) with `INVALID_SCHEMA`. -/
theorem loadConfig_invalid_schema_before_sections_witness :
    loadConfig vjerValidSchemas true (Value.vmap [("schema", Value.vint 2)])
      = .error (.invalidSchema (Value.vint 2) vjerValidSchemas) := by
  have h := loadConfig_invalid_schema_before_sections vjerValidSchemas
    (Value.vmap [("schema", Value.vint 2)]) (by decide)
  simpa using h

/-- The fixed release pre-steps (`RELEASE_PRE_STEPS`,
`src/cicd-scripts/utils.py:85`). -/
def RELEASE_PRE_STEPS : List String := ["tag_source"]

/-- The fixed release post-steps (`RELEASE_POST_STEPS`,
`src/cicd-scripts/utils.py:86`). -/
def RELEASE_POST_STEPS : List String := ["gitlab", "increment_release"]

/-- Python `step.get('type') == step_type`: true exactly when the step's
`type` field is the given string. -/
def typeIs (s : Step) (n : String) : Bool :=
  match alistGet s "type" with
  | some (.vstr t) => t == n
  | _ => false

/-- `ProjectConfig._get_phase_step` (`src/cicd-scripts/utils.py:420-434`,
identical in `src/vjer/utils.py:235-249`): if the phase declares steps, a
deep copy of the first declared step whose `type` equals the requested fixed
step name; otherwise a minimal mapping holding only the `type` field.  Deep
copying is modelled by value semantics: the returned step is the same
mapping value and the declared list is left untouched. -/
def getPhaseStep (declared : Option (List Step)) (stepType : String) : Step :=
  match declared with
  | some steps =>
    match steps.find? (fun s => typeIs s stepType) with
    | some s => s
    | none => [("type", Value.vstr stepType)]
  | none => [("type", Value.vstr stepType)]

/-- `step.get('type') not in RELEASE_PRE_STEPS + RELEASE_POST_STEPS`,
negated. -/
def isFixedReleaseType (s : Step) : Bool :=
  (RELEASE_PRE_STEPS ++ RELEASE_POST_STEPS).any (fun n => typeIs s n)

/-- The effective release step list assembly
(`src/cicd-scripts/utils.py:409-413`): fixed pre-steps, then the declared
steps whose `type` does not collide with a fixed step name, then fixed
post-steps.  `declared = none` models a release section without a `steps`
key (`hasattr(self.release, 'steps')` false). -/
def releaseSteps (declared : Option (List Step)) : List Step :=
  (RELEASE_PRE_STEPS.map (getPhaseStep declared))
    ++ (match declared with
        | some steps => steps.filter (fun s => !isFixedReleaseType s)
        | none => [])
    ++ (RELEASE_POST_STEPS.map (getPhaseStep declared))

/-- The step produced by `_get_phase_step` for a fixed name always carries
that name as its `type` field. -/
theorem getPhaseStep_type (d : Option (List Step)) (t : String) :
    alistGet (getPhaseStep d t) "type" = some (Value.vstr t) := by
  cases d with
  | none => rfl
  | some steps =>
    cases hf : steps.find? (fun s => typeIs s t) with
    | none => simp [getPhaseStep, hf, alistGet]
    | some s =>
      have hgps : getPhaseStep (some steps) t = s := by simp [getPhaseStep, hf]
      rw [hgps]
      have hp := List.find?_some hf
      unfold typeIs at hp
      cases hv : alistGet s "type" with
      | none => rw [hv] at hp; exact absurd hp (by simp)
      | some v =>
        rw [hv] at hp
        cases v with
        | vstr u =>
          simp only [beq_iff_eq] at hp
          rw [hp]
        | vnone => exact absurd hp (by simp)
        | vbool b => exact absurd hp (by simp)
        | vint n => exact absurd hp (by simp)
        | vlist l => exact absurd hp (by simp)
        | vmap m => exact absurd hp (by simp)

/-- Claim C1: the effective release step list is exactly one fixed pre-step
of type `tag_source`, then the user-declared steps whose type is not a fixed
pre/post name (a sublist, so their relative order is preserved), then the
fixed post-steps of types `gitlab` and `increment_release`; with an empty
declared list it is exactly the three minimal fixed steps in that order. -/
theorem release_steps_assembly (declared : List Step) :
    (∃ preS postS,
      releaseSteps (some declared)
          = preS ++ declared.filter (fun s => !isFixedReleaseType s) ++ postS
        ∧ preS.map (fun s => alistGet s "type") = [some (Value.vstr "tag_source")]
        ∧ postS.map (fun s => alistGet s "type")
            = [some (Value.vstr "gitlab"), some (Value.vstr "increment_release")]
        ∧ List.Sublist (declared.filter (fun s => !isFixedReleaseType s)) declared)
    ∧ releaseSteps (some []) = [[("type", Value.vstr "tag_source")],
        [("type", Value.vstr "gitlab")], [("type", Value.vstr "increment_release")]] := by
  refine ⟨⟨[getPhaseStep (some declared) "tag_source"],
    [getPhaseStep (some declared) "gitlab", getPhaseStep (some declared) "increment_release"],
    rfl, ?_, ?_, List.filter_sublist _⟩, rfl⟩
  · simp [getPhaseStep_type]
  · simp [getPhaseStep_type]

/-- If `l[i]?` is a hit for `p` and every earlier index misses, `find?`
returns exactly that element. -/
theorem find?_of_first {α : Type} (p : α → Bool) :
    ∀ (l : List α) (i : Nat) (a : α), l[i]? = some a → p a = true →
      (∀ j b, j < i → l[j]? = some b → p b = false) → l.find? p = some a := by
  intro l
  induction l with
  | nil => intro i a h _ _; simp at h
  | cons x xs ih =>
    intro i a ha hpa hmin
    cases i with
    | zero =>
      simp only [List.getElem?_cons_zero, Option.some.injEq] at ha
      subst ha
      simp [List.find?_cons, hpa]
    | succ n =>
      have hx : p x = false := hmin 0 x (Nat.succ_pos n) (by simp)
      simp only [List.getElem?_cons_succ] at ha
      rw [List.find?_cons, hx]
      exact ih n a ha hpa (fun j b hj hb =>
        hmin (j + 1) b (Nat.succ_lt_succ hj) (by simpa using hb))

/-- Claim C10: the step filling a fixed release position is the first
user-declared step whose `type` equals the fixed name — the whole step
mapping, so every type-specific field of that step is honored — and a
minimal `{type: name}` mapping when no declared step matches (or no steps
are declared at all).  The embedding is pure, so the declared list itself is
returned unchanged inside the effective list (no mutation). -/
theorem getPhaseStep_spec (declared : List Step) (t : String) :
    (∀ (i : Nat) (s : Step), declared[i]? = some s → typeIs s t = true →
        (∀ (j : Nat) (r : Step), j < i → declared[j]? = some r → typeIs r t = false) →
        getPhaseStep (some declared) t = s)
    ∧ ((∀ s ∈ declared, typeIs s t = false) →
        getPhaseStep (some declared) t = [("type", Value.vstr t)])
    ∧ getPhaseStep none t = [("type", Value.vstr t)] := by
  refine ⟨?_, ?_, rfl⟩
  · intro i s hs hts hmin
    have hf := find?_of_first _ declared i s hs hts hmin
    simp [getPhaseStep, hf]
  · intro hall
    have hf : declared.find? (fun s => typeIs s t) = none :=
      List.find?_eq_none.mpr (fun s hmem => by simp [hall s hmem])
    simp [getPhaseStep, hf]

/-- Witness for C10: a declared release step of type `gitlab` with an extra
field fills the fixed `gitlab` slot with all its fields; with no match the
slot is the minimal mapping. -/
theorem getPhaseStep_spec_witness :
    getPhaseStep (some [[("type", Value.vstr "docker")],
        [("type", Value.vstr "gitlab"), ("notify", Value.vbool true)]]) "gitlab"
      = [("type", Value.vstr "gitlab"), ("notify", Value.vbool true)] :=
  (getPhaseStep_spec [[("type", Value.vstr "docker")],
      [("type", Value.vstr "gitlab"), ("notify", Value.vbool true)]] "gitlab").1
    1 _ rfl rfl (fun j r hj hr => by
      cases j with
      | zero =>
        simp only [List.getElem?_cons_zero, Option.some.injEq] at hr
        rw [← hr]
        rfl
      | succ n => exact absurd hj (by omega))

/-- Truthiness of a step's `ignore` field (`step.ignore` on a `DotMap`: an
absent key reads as an empty, falsy `DotMap`). -/
def ignoredB (s : Step) : Bool := truthyOpt (alistGet s "ignore")

/-- One observable event of an action-runner iteration: either the step was
logged as skipped (no executor constructed), or an executor was constructed
and run with the given `is_first_step` flag in its `step_info`. -/
inductive RunEvent where
  | skipped (s : Step) : RunEvent
  | executed (s : Step) (isFirstStep : Bool) : RunEvent

/-- The loop of `CICDAction.execute` (`src/cicd-scripts/utils.py:1016-1025`):
each step receives the current `is_first_step` flag; a step with truthy
`ignore` is logged as skipped and the loop continues without constructing an
executor (and without clearing the flag); otherwise an executor runs the step
and the flag is cleared. -/
def cicdRunSteps : List Step → Bool → List RunEvent
  | [], _ => []
  | s :: rest, first =>
    if ignoredB s then .skipped s :: cicdRunSteps rest first
    else .executed s first :: cicdRunSteps rest false

/-- `CICDAction.execute` starts with `is_first_step = True`. -/
def cicdExecute (steps : List Step) : List RunEvent := cicdRunSteps steps true

/-- The loop of `VjerAction.execute` (`src/vjer/utils.py:574-580`): every
declared step is executed — there is no `ignore` handling — and the flag is
cleared after every step, so only the first declared step sees
`is_first_step = True`. -/
def vjerRunSteps : List Step → Bool → List RunEvent
  | [], _ => []
  | s :: rest, first => .executed s first :: vjerRunSteps rest false

/-- `VjerAction.execute` starts with `is_first_step = True`. -/
def vjerExecute (steps : List Step) : List RunEvent := vjerRunSteps steps true

/-- An event that is an executed step carrying `is_first_step = True`. -/
def isFirstExecuted : RunEvent → Bool
  | .executed _ true => true
  | _ => false

/-- Positional characterization of the cicd-scripts runner loop. -/
theorem cicdRunSteps_getElem? (steps : List Step) (first : Bool) :
    ∀ (i : Nat) (s : Step), steps[i]? = some s →
      (cicdRunSteps steps first)[i]?
        = some (if ignoredB s then RunEvent.skipped s
                else RunEvent.executed s (first && (steps.take i).all ignoredB)) := by
  induction steps generalizing first with
  | nil => intro i s h; simp at h
  | cons x xs ih =>
    intro i s hs
    cases hx : ignoredB x with
    | true =>
      rw [show cicdRunSteps (x :: xs) first = .skipped x :: cicdRunSteps xs first by
        simp [cicdRunSteps, hx]]
      cases i with
      | zero =>
        simp only [List.getElem?_cons_zero, Option.some.injEq] at hs
        subst hs
        simp [hx]
      | succ n =>
        simp only [List.getElem?_cons_succ] at hs ⊢
        rw [ih first n s hs]
        simp [List.all_cons, hx]
    | false =>
      rw [show cicdRunSteps (x :: xs) first = .executed x first :: cicdRunSteps xs false by
        simp [cicdRunSteps, hx]]
      cases i with
      | zero =>
        simp only [List.getElem?_cons_zero, Option.some.injEq] at hs
        subst hs
        simp [hx]
      | succ n =>
        simp only [List.getElem?_cons_succ] at hs ⊢
        rw [ih false n s hs]
        simp [List.all_cons, hx]

/-- The cicd-scripts runner produces exactly one executed event with
`is_first_step = True` when some step is non-ignored, and none otherwise. -/
theorem cicdRunSteps_countP (steps : List Step) (first : Bool) :
    (cicdRunSteps steps first).countP isFirstExecuted
      = if first && !(steps.all ignoredB) then 1 else 0 := by
  induction steps generalizing first with
  | nil => simp [cicdRunSteps]
  | cons x xs ih =>
    cases hx : ignoredB x with
    | true =>
      rw [show cicdRunSteps (x :: xs) first = .skipped x :: cicdRunSteps xs first by
        simp [cicdRunSteps, hx]]
      rw [List.countP_cons]
      simp only [isFirstExecuted, ih first, List.all_cons, hx]
      simp
    | false =>
      rw [show cicdRunSteps (x :: xs) first = .executed x first :: cicdRunSteps xs false by
        simp [cicdRunSteps, hx]]
      rw [List.countP_cons]
      rw [ih false]
      cases first <;> simp [isFirstExecuted, List.all_cons, hx]

/-- Positional characterization of the vjer runner loop. -/
theorem vjerRunSteps_getElem? (steps : List Step) (first : Bool) :
    ∀ (i : Nat) (s : Step), steps[i]? = some s →
      (vjerRunSteps steps first)[i]?
        = some (RunEvent.executed s (first && decide (i = 0))) := by
  induction steps generalizing first with
  | nil => intro i s h; simp at h
  | cons x xs ih =>
    intro i s hs
    cases i with
    | zero =>
      simp only [List.getElem?_cons_zero, Option.some.injEq] at hs
      subst hs
      simp [vjerRunSteps]
    | succ n =>
      simp only [List.getElem?_cons_succ] at hs
      rw [show vjerRunSteps (x :: xs) first = .executed x first :: vjerRunSteps xs false from rfl]
      simp only [List.getElem?_cons_succ]
      rw [ih false n s hs]
      simp

/-- Counterexample to claim C2 as stated: the vjer generation's action runner
(`VjerAction.execute`, `src/vjer/utils.py:574-580`) has no `ignore` handling,
so a step whose `ignore` flag is true is not skipped: an executor is
constructed and run for it (here even with `is_first_step = True`). -/
theorem vjer_runner_executes_ignored_step :
    ignoredB [("type", Value.vstr "helm"), ("ignore", Value.vbool true)] = true
    ∧ vjerExecute [[("type", Value.vstr "helm"), ("ignore", Value.vbool true)]]
        = [RunEvent.executed [("type", Value.vstr "helm"), ("ignore", Value.vbool true)] true] :=
  ⟨rfl, rfl⟩

/-- Claim C2 as amended: in the cicd-scripts action runner
(`CICDAction.execute`) a step with truthy `ignore` is logged as skipped and
no executor is constructed or run for it; a non-ignored step is executed
with `is_first_step` true exactly when every earlier step was ignored, so
`is_first_step` is true for exactly one executed step (the first non-ignored
one) and for none when all steps are ignored.  The vjer action runner
(`VjerAction.execute`) instead executes every declared step, ignored or not,
with `is_first_step` true exactly for the first declared step. -/
theorem action_runner_ignore_semantics (steps : List Step) :
    (∀ (i : Nat) (s : Step), steps[i]? = some s → ignoredB s = true →
        (cicdExecute steps)[i]? = some (RunEvent.skipped s))
    ∧ (∀ (i : Nat) (s : Step), steps[i]? = some s → ignoredB s = false →
        (cicdExecute steps)[i]?
          = some (RunEvent.executed s ((steps.take i).all ignoredB)))
    ∧ ((cicdExecute steps).countP isFirstExecuted
        = if steps.all ignoredB then 0 else 1)
    ∧ (∀ (i : Nat) (s : Step), steps[i]? = some s →
        (vjerExecute steps)[i]? = some (RunEvent.executed s (decide (i = 0)))) := by
  refine ⟨?_, ?_, ?_, ?_⟩
  · intro i s hs hig
    unfold cicdExecute
    rw [cicdRunSteps_getElem? steps true i s hs]
    simp [hig]
  · intro i s hs hig
    unfold cicdExecute
    rw [cicdRunSteps_getElem? steps true i s hs]
    simp [hig]
  · unfold cicdExecute
    rw [cicdRunSteps_countP steps true]
    cases h : steps.all ignoredB <;> simp
  · intro i s hs
    unfold vjerExecute
    rw [vjerRunSteps_getElem? steps true i s hs]
    simp

/-- Witness for the amended C2 on the lists of spec Scenario C: for
`[{type: helm, ignore: true}, {type: docker}]` the cicd runner skips the
first step and executes the second with `is_first_step = True`, while the
vjer runner gives `is_first_step = True` to the ignored first step. -/
theorem action_runner_ignore_semantics_witness :
    (cicdExecute [[("type", Value.vstr "helm"), ("ignore", Value.vbool true)],
        [("type", Value.vstr "docker")]])[0]?
      = some (RunEvent.skipped [("type", Value.vstr "helm"), ("ignore", Value.vbool true)])
    ∧ (cicdExecute [[("type", Value.vstr "helm"), ("ignore", Value.vbool true)],
        [("type", Value.vstr "docker")]])[1]?
      = some (RunEvent.executed [("type", Value.vstr "docker")] true)
    ∧ (vjerExecute [[("type", Value.vstr "helm"), ("ignore", Value.vbool true)],
        [("type", Value.vstr "docker")]])[1]?
      = some (RunEvent.executed [("type", Value.vstr "docker")] false) := by
  refine ⟨?_, ?_, ?_⟩
  · exact (action_runner_ignore_semantics
      [[("type", Value.vstr "helm"), ("ignore", Value.vbool true)],
       [("type", Value.vstr "docker")]]).1 0 _ rfl rfl
  · have h := (action_runner_ignore_semantics
      [[("type", Value.vstr "helm"), ("ignore", Value.vbool true)],
       [("type", Value.vstr "docker")]]).2.1 1 [("type", Value.vstr "docker")] rfl rfl
    simpa using h
  · have h := (action_runner_ignore_semantics
      [[("type", Value.vstr "helm"), ("ignore", Value.vbool true)],
       [("type", Value.vstr "docker")]]).2.2.2 1 [("type", Value.vstr "docker")] rfl
    simpa using h

/-- Python `str.lower`, over the character list of the string. -/
def strToLower (s : String) : String := String.mk (s.toList.map Char.toLower)

/-- Python `str.startswith`, over the character list of the strings. -/
def strStartsWith (s p : String) : Bool :=
  s.toList.take p.toList.length == p.toList

/-- Python `str.endswith`, over the character list of the strings. -/
def strEndsWith (s suf : String) : Bool :=
  s.toList.reverse.take suf.toList.length == suf.toList.reverse

/-- Python `str.removeprefix`: drop `p` from the front of `s` when present. -/
def stripPre (s p : String) : String :=
  if strStartsWith s p then String.mk (s.toList.drop p.toList.length) else s

/-- Python `str.removesuffix`: drop `suf` from the end of `s` when present. -/
def stripSuf (s suf : String) : String :=
  if strEndsWith s suf then String.mk ((s.toList.reverse.drop suf.toList.length).reverse) else s

/-- The phase name derived from the executor class name
(`type(self).__name__.lower().removeprefix('pre').removesuffix('step')`,
`src/vjer/utils.py:367`, `src/cicd-scripts/utils.py:748`). -/
def phaseOf (className : String) : String :=
  stripSuf (stripPre (strToLower className) "pre") "step"

/-- The handler method name `{phase}_{step.type}` resolved by `_execute`. -/
def handlerName (className stepType : String) : String :=
  phaseOf className ++ "_" ++ stepType

/-- Outcome of `VjerStep._execute` (`src/vjer/utils.py:365-372`,
`src/cicd-scripts/utils.py:746-753`): the handler method runs when it exists;
otherwise the phase/type pair is reported and the whole process terminates
via `sys_exit(1)`. -/
inductive StepResult where
  | ran (method : String) : StepResult
  | fatal (phase stepType : String) : StepResult

/-- `_execute` dispatch for one step, given the handler method names that
exist on the executor class. -/
def stepExecute (methods : List String) (className stepType : String) : StepResult :=
  if methods.contains (handlerName className stepType) then
    .ran (handlerName className stepType)
  else .fatal (phaseOf className) stepType

/-- The phase loop under process-exit semantics: steps run in order, and a
fatal dispatch terminates the process, so nothing after it runs. -/
def runPhase (methods : List String) (className : String) : List String → List StepResult
  | [] => []
  | t :: rest =>
    match stepExecute methods className t with
    | .ran m => .ran m :: runPhase methods className rest
    | .fatal ph ty => [.fatal ph ty]

/-- Claim C7: when a step's `type` has no `{phase}_{type}` handler on the
executor, the run reports the phase/type pair and terminates the process, so
no subsequent step of the phase runs: the trace for `ts ++ t :: rest` equals
the trace for `ts ++ [t]` (independent of `rest`), and when every step of
`ts` is handled it is exactly the handled prefix followed by the single fatal
event.  The phase name is the executor class name lower-cased with the `pre`
prefix and `step` suffix stripped, e.g. `PreReleaseStep ↦ release`. -/
theorem missing_handler_fatal (methods : List String) (className : String)
    (ts : List String) (t : String) (rest : List String)
    (h : methods.contains (handlerName className t) = false) :
    (runPhase methods className (ts ++ t :: rest)
      = runPhase methods className (ts ++ [t]))
    ∧ ((∀ u ∈ ts, methods.contains (handlerName className u) = true) →
        runPhase methods className (ts ++ t :: rest)
          = ts.map (fun u => StepResult.ran (handlerName className u))
            ++ [StepResult.fatal (phaseOf className) t])
    ∧ phaseOf "PreReleaseStep" = "release"
    ∧ phaseOf "BuildStep" = "build" := by
  have hfatal : stepExecute methods className t = .fatal (phaseOf className) t := by
    unfold stepExecute
    rw [h]
    rfl
  refine ⟨?_, ?_, by decide, by decide⟩
  · induction ts with
    | nil => simp [runPhase, hfatal]
    | cons u us ih =>
      simp only [List.cons_append, runPhase, List.append_eq]
      cases stepExecute methods className u with
      | ran m => rw [ih]
      | fatal ph ty => rfl
  · intro hall
    induction ts with
    | nil => simp [runPhase, hfatal]
    | cons u us ih =>
      have hu : methods.contains (handlerName className u) = true :=
        hall u (List.mem_cons_self u us)
      simp only [List.cons_append, runPhase, List.append_eq]
      rw [show stepExecute methods className u = .ran (handlerName className u) by
        unfold stepExecute; rw [hu]; simp]
      rw [ih (fun v hv => hall v (List.mem_cons_of_mem u hv))]
      simp

/-- Witness for C7: with only a `build_docker` handler, the step list
`[docker, helm, docker]` on `BuildStep` runs the first step, dies fatally on
`helm`, and never reaches the third step. -/
theorem missing_handler_fatal_witness :
    runPhase ["build_docker"] "BuildStep" ["docker", "helm", "docker"]
      = [StepResult.ran "build_docker", StepResult.fatal "build" "helm"] := by
  have h := (missing_handler_fatal ["build_docker"] "BuildStep" ["docker"] "helm"
    ["docker"] (by decide)).2.1 (by decide)
  simpa using h

/-- `VjerStep.__getattr__` (`src/vjer/utils.py:343-346`): raise
`AttributeError` when the project section has no such attribute; otherwise
return the `step_info` value when it is truthy and the project value when it
is not (an absent `step_info` key reads as an empty, falsy `DotMap`). -/
def vjerStepGetattr (exp : Value → Value) (project : ConfigSection)
    (stepInfo : Step) (attr : String) : Option Value :=
  match csGetattr exp project attr with
  | none => none
  | some pv =>
    match alistGet stepInfo attr with
    | some v => if truthy v then some v else some pv
    | none => some pv

/-- `CICDStep.__getattr__` (`src/cicd-scripts/utils.py:709-712`): raise
`AttributeError` when the name is not in the built-in `_DEFAULTS` table;
otherwise return the `step_info` value when it is truthy and the defaults
entry when it is not. -/
def cicdStepGetattr (defaults : List (String × Value)) (stepInfo : Step)
    (attr : String) : Option Value :=
  if !(defaults.any (fun e => e.1 == attr)) then none
  else
    match alistGet stepInfo attr with
    | some v => if truthy v then some v else alistGet defaults attr
    | none => alistGet defaults attr

/-- Claim C9: step-executor attribute lookup falls back by truthiness, not
presence.  In both generations, when the attribute exists on the fallback
source (project section for vjer, `_DEFAULTS` table for cicd-scripts) the
`step_info` value is returned only when truthy — a falsy step field (false,
0, empty string) is silently replaced by the fallback value — and lookup
fails (`AttributeError`) when the attribute is absent from the fallback
source even if `step_info` carries it. -/
theorem step_getattr_truthy_fallback (exp : Value → Value) (project : ConfigSection)
    (defaults : List (String × Value)) (stepInfo : Step) (attr : String) :
    (∀ pv, csGetattr exp project attr = some pv →
        ((∀ v, alistGet stepInfo attr = some v → truthy v = false →
            vjerStepGetattr exp project stepInfo attr = some pv)
          ∧ (∀ v, alistGet stepInfo attr = some v → truthy v = true →
              vjerStepGetattr exp project stepInfo attr = some v)
          ∧ (alistGet stepInfo attr = none →
              vjerStepGetattr exp project stepInfo attr = some pv)))
    ∧ (csGetattr exp project attr = none →
        vjerStepGetattr exp project stepInfo attr = none)
    ∧ (defaults.any (fun e => e.1 == attr) = false →
        cicdStepGetattr defaults stepInfo attr = none)
    ∧ (∀ v, defaults.any (fun e => e.1 == attr) = true →
        alistGet stepInfo attr = some v → truthy v = false →
        cicdStepGetattr defaults stepInfo attr = alistGet defaults attr)
    ∧ (∀ v, defaults.any (fun e => e.1 == attr) = true →
        alistGet stepInfo attr = some v → truthy v = true →
        cicdStepGetattr defaults stepInfo attr = some v) := by
  refine ⟨?_, ?_, ?_, ?_, ?_⟩
  · intro pv hpv
    refine ⟨?_, ?_, ?_⟩
    · intro v hv htr
      unfold vjerStepGetattr
      rw [hpv, hv]
      simp [htr]
    · intro v hv htr
      unfold vjerStepGetattr
      rw [hpv, hv]
      simp [htr]
    · intro hv
      unfold vjerStepGetattr
      rw [hpv, hv]
  · intro hpv
    unfold vjerStepGetattr
    rw [hpv]
  · intro hd
    unfold cicdStepGetattr
    rw [hd]
    rfl
  · intro v hd hv htr
    unfold cicdStepGetattr
    rw [hd, hv]
    simp [htr]
  · intro v hd hv htr
    unfold cicdStepGetattr
    rw [hd, hv]
    simp [htr]

/-- Witness for C9: a step field `clean` explicitly set to `false` is
replaced by the truthy project/defaults value `true` in both generations,
and a name absent from the fallback source errors even though `step_info`
carries it. -/
theorem step_getattr_truthy_fallback_witness :
    vjerStepGetattr id ⟨[("clean", Value.vbool true)], []⟩
        [("clean", Value.vbool false)] "clean" = some (Value.vbool true)
    ∧ vjerStepGetattr id ⟨[("clean", Value.vbool true)], []⟩
        [("custom", Value.vbool true)] "custom" = none
    ∧ cicdStepGetattr [("dockerfile", Value.vstr "Dockerfile")]
        [("dockerfile", Value.vstr "")] "dockerfile"
        = some (Value.vstr "Dockerfile") := by
  refine ⟨?_, ?_, ?_⟩
  · exact ((step_getattr_truthy_fallback id ⟨[("clean", Value.vbool true)], []⟩
      [] [("clean", Value.vbool false)] "clean").1 (Value.vbool true) rfl).1
      (Value.vbool false) rfl rfl
  · exact (step_getattr_truthy_fallback id ⟨[("clean", Value.vbool true)], []⟩
      [] [("custom", Value.vbool true)] "custom").2.1 rfl
  · have h := (step_getattr_truthy_fallback id ⟨[], []⟩
      [("dockerfile", Value.vstr "Dockerfile")]
      [("dockerfile", Value.vstr "")] "dockerfile").2.2.2.1
      (Value.vstr "") rfl rfl rfl
    simpa [alistGet] using h

/-- The section comprehension of `ProjectConfig.write`
(`{s: c.values for (s, c) in self._sections.items() if c.values}`,
`src/vjer/utils.py:305`): one entry per section whose `values` layer is
non-empty, holding exactly that layer (the `values` property returns
`_values.toDict()`, defaults excluded). -/
def writeBody : List (String × ConfigSection) → List (String × Value)
  | [] => []
  | sc :: rest =>
    if sc.2.values.isEmpty then writeBody rest
    else (sc.1, Value.vmap sc.2.values) :: writeBody rest

/-- `ProjectConfig.write` (`src/vjer/utils.py:298-306`): the serialized
document is the schema value followed by the non-empty `values` snapshots. -/
def writeDoc (schema : Value) (sections : List (String × ConfigSection)) :
    List (String × Value) :=
  ("schema", schema) :: writeBody sections

/-- The vjer `ProjectConfig._sections` in insertion order
(`src/vjer/utils.py:212-217`, `build` added last). -/
def vjerSections (p t d r rel b : ConfigSection) : List (String × ConfigSection) :=
  [("project", p), ("test", t), ("deploy", d), ("rollback", r), ("release", rel), ("build", b)]

/-- A section with a non-empty values layer appears in the serialized body
with exactly its values snapshot. -/
theorem writeBody_mem :
    ∀ (sections : List (String × ConfigSection)) (name : String) (cs : ConfigSection),
      (name, cs) ∈ sections → cs.values ≠ [] →
      (name, Value.vmap cs.values) ∈ writeBody sections := by
  intro sections
  induction sections with
  | nil => intro name cs h _; exact absurd h (List.not_mem_nil _)
  | cons x xs ih =>
    intro name cs h hne
    have hv : cs.values.isEmpty = false := by
      cases hcv : cs.values with
      | nil => exact absurd hcv hne
      | cons a as => rfl
    rcases List.mem_cons.mp h with heq | hmem
    · rw [← heq]
      unfold writeBody
      rw [hv]
      simp
    · unfold writeBody
      by_cases hx : x.2.values.isEmpty = true
      · rw [hx]
        simp only [if_true]
        exact ih name cs hmem hne
      · rw [Bool.eq_false_iff.mpr hx]
        simp only [Bool.false_eq_true, if_false]
        exact List.mem_cons_of_mem _ (ih name cs hmem hne)

/-- Every entry of the serialized body comes from a section with a non-empty
values layer and is exactly its values snapshot. -/
theorem writeBody_mem_inv :
    ∀ (sections : List (String × ConfigSection)) (e : String × Value),
      e ∈ writeBody sections →
      ∃ name cs, (name, cs) ∈ sections ∧ cs.values ≠ [] ∧ e = (name, Value.vmap cs.values) := by
  intro sections
  induction sections with
  | nil => intro e h; exact absurd h (List.not_mem_nil _)
  | cons x xs ih =>
    intro e h
    unfold writeBody at h
    by_cases hx : x.2.values.isEmpty = true
    · rw [hx] at h
      simp only [if_true] at h
      obtain ⟨name, cs, h1, h2, h3⟩ := ih e h
      exact ⟨name, cs, List.mem_cons_of_mem _ h1, h2, h3⟩
    · rw [Bool.eq_false_iff.mpr hx] at h
      simp only [Bool.false_eq_true, if_false] at h
      rcases List.mem_cons.mp h with heq | hmem
      · refine ⟨x.1, x.2, ?_, ?_, heq⟩
        · simp
        · intro hnil
          rw [hnil] at hx
          exact hx rfl
      · obtain ⟨name, cs, h1, h2, h3⟩ := ih e hmem
        exact ⟨name, cs, List.mem_cons_of_mem _ h1, h2, h3⟩

/-- Every key of the serialized body whose sections all have empty values
layers is absent from the body. -/
theorem writeBody_keys :
    ∀ (sections : List (String × ConfigSection)) (name : String),
      (∀ sc ∈ sections, sc.1 = name → sc.2.values = []) →
      ∀ e ∈ writeBody sections, (e.1 == name) = false := by
  intro sections
  induction sections with
  | nil => intro name _ e h; exact absurd h (List.not_mem_nil _)
  | cons x xs ih =>
    intro name hall e he
    unfold writeBody at he
    by_cases hx : x.2.values.isEmpty = true
    · rw [hx] at he
      simp only [if_true] at he
      exact ih name (fun sc hsc => hall sc (List.mem_cons_of_mem _ hsc)) e he
    · rw [Bool.eq_false_iff.mpr hx] at he
      simp only [Bool.false_eq_true, if_false] at he
      rcases List.mem_cons.mp he with heq | hmem
      · rw [heq]
        simp only [beq_eq_false_iff_ne, ne_eq]
        intro hx1
        have := hall x (List.mem_cons_self _ _) hx1
        rw [this] at hx
        exact hx rfl
      · exact ih name (fun sc hsc => hall sc (List.mem_cons_of_mem _ hsc)) e hmem

/-- A name distinct from `schema` whose sections carry only empty values
layers does not occur in the written document. -/
theorem alistGet_writeDoc_none (schema : Value)
    (sections : List (String × ConfigSection)) (name : String)
    (h1 : name ≠ "schema")
    (h2 : ∀ sc ∈ sections, sc.1 = name → sc.2.values = []) :
    alistGet (writeDoc schema sections) name = none := by
  unfold alistGet writeDoc
  rw [List.find?_eq_none.mpr ?miss]
  case miss =>
    intro e he
    rcases List.mem_cons.mp he with heq | hmem
    · rw [heq]
      have hne : (("schema" : String) == name) = false :=
        beq_eq_false_iff_ne.mpr (fun hc => h1 hc.symm)
      simpa using hne
    · rw [writeBody_keys sections name h2 e hmem]
      simp

/-- The serialized body depends only on the names and values layers of the
sections, never on their defaults layers. -/
theorem writeBody_congr :
    ∀ (s1 s2 : List (String × ConfigSection)),
      s1.map (fun sc => (sc.1, sc.2.values)) = s2.map (fun sc => (sc.1, sc.2.values)) →
      writeBody s1 = writeBody s2 := by
  intro s1
  induction s1 with
  | nil =>
    intro s2 h
    cases s2 with
    | nil => rfl
    | cons y ys => simp at h
  | cons x xs ih =>
    intro s2 h
    cases s2 with
    | nil => simp at h
    | cons y ys =>
      simp only [List.map_cons, List.cons.injEq, Prod.mk.injEq] at h
      obtain ⟨⟨h1, h2⟩, h3⟩ := h
      unfold writeBody
      rw [h1, h2, ih ys h3]

/-- Claim C8: `ProjectConfig.write` serializes exactly the schema value plus,
for each section whose values layer is non-empty, that section's values
snapshot (the values layer only): the document starts with the schema entry;
every section with a non-empty values layer appears with exactly its values
snapshot; a section whose values layer is empty does not occur in the
document at all; every document entry is the schema entry or such a
snapshot; and the document is unchanged under arbitrary replacement of all
defaults layers (defaults are excluded). -/
theorem write_serializes_schema_and_values (schema : Value)
    (p t d r rel b : ConfigSection) :
    (writeDoc schema (vjerSections p t d r rel b)).head? = some ("schema", schema)
    ∧ (∀ name cs, (name, cs) ∈ vjerSections p t d r rel b → cs.values ≠ [] →
        (name, Value.vmap cs.values) ∈ writeDoc schema (vjerSections p t d r rel b))
    ∧ (∀ name cs, (name, cs) ∈ vjerSections p t d r rel b → cs.values = [] →
        alistGet (writeDoc schema (vjerSections p t d r rel b)) name = none)
    ∧ (∀ e ∈ writeDoc schema (vjerSections p t d r rel b),
        e = ("schema", schema)
        ∨ ∃ name cs, (name, cs) ∈ vjerSections p t d r rel b
            ∧ cs.values ≠ [] ∧ e = (name, Value.vmap cs.values))
    ∧ (∀ pd td dd rd reld bd,
        writeDoc schema (vjerSections ⟨p.values, pd⟩ ⟨t.values, td⟩ ⟨d.values, dd⟩
            ⟨r.values, rd⟩ ⟨rel.values, reld⟩ ⟨b.values, bd⟩)
          = writeDoc schema (vjerSections p t d r rel b)) := by
  refine ⟨rfl, ?_, ?_, ?_, ?_⟩
  · intro name cs hmem hne
    exact List.mem_cons_of_mem _ (writeBody_mem _ name cs hmem hne)
  · intro name cs hmem hempty
    simp only [vjerSections, List.mem_cons, List.not_mem_nil, or_false,
      Prod.mk.injEq] at hmem
    rcases hmem with ⟨rfl, rfl⟩ | ⟨rfl, rfl⟩ | ⟨rfl, rfl⟩ | ⟨rfl, rfl⟩ | ⟨rfl, rfl⟩ | ⟨rfl, rfl⟩ <;>
      · apply alistGet_writeDoc_none
        · decide
        · intro sc hsc heq
          simp only [vjerSections, List.mem_cons, List.not_mem_nil, or_false] at hsc
          rcases hsc with rfl | rfl | rfl | rfl | rfl | rfl <;>
            first
            | exact hempty
            | simp at heq
  · intro e he
    rcases List.mem_cons.mp he with heq | hmem
    · exact Or.inl heq
    · exact Or.inr (writeBody_mem_inv _ e hmem)
  · intro pd td dd rd reld bd
    unfold writeDoc
    rw [writeBody_congr (vjerSections ⟨p.values, pd⟩ ⟨t.values, td⟩ ⟨d.values, dd⟩
      ⟨r.values, rd⟩ ⟨rel.values, reld⟩ ⟨b.values, bd⟩) (vjerSections p t d r rel b) rfl]

/-- Witness for C8: with only the project section non-empty, the written
document is the schema entry plus the project snapshot; the empty release
section is omitted, and changing a defaults layer changes nothing. -/
theorem write_serializes_schema_and_values_witness :
    (("project", Value.vmap [("name", Value.vstr "demo")])
        ∈ writeDoc (Value.vint 3) (vjerSections ⟨[("name", Value.vstr "demo")], []⟩
            ⟨[], []⟩ ⟨[], []⟩ ⟨[], []⟩ ⟨[], []⟩ ⟨[], []⟩))
    ∧ alistGet (writeDoc (Value.vint 3) (vjerSections ⟨[("name", Value.vstr "demo")], []⟩
          ⟨[], []⟩ ⟨[], []⟩ ⟨[], []⟩ ⟨[], []⟩ ⟨[], []⟩)) "release" = none
    ∧ writeDoc (Value.vint 3) (vjerSections ⟨[("name", Value.vstr "demo")], [("extra", Value.vint 1)]⟩
          ⟨[], []⟩ ⟨[], []⟩ ⟨[], []⟩ ⟨[], []⟩ ⟨[], []⟩)
        = writeDoc (Value.vint 3) (vjerSections ⟨[("name", Value.vstr "demo")], []⟩
          ⟨[], []⟩ ⟨[], []⟩ ⟨[], []⟩ ⟨[], []⟩ ⟨[], []⟩) := by
  refine ⟨?_, ?_, ?_⟩
  · exact (write_serializes_schema_and_values (Value.vint 3)
      ⟨[("name", Value.vstr "demo")], []⟩ ⟨[], []⟩ ⟨[], []⟩ ⟨[], []⟩ ⟨[], []⟩ ⟨[], []⟩).2.1
      "project" ⟨[("name", Value.vstr "demo")], []⟩ (by simp [vjerSections])
      (by intro h; exact absurd h (by simp))
  · exact (write_serializes_schema_and_values (Value.vint 3)
      ⟨[("name", Value.vstr "demo")], []⟩ ⟨[], []⟩ ⟨[], []⟩ ⟨[], []⟩ ⟨[], []⟩ ⟨[], []⟩).2.2.1
      "release" ⟨[], []⟩ (by simp [vjerSections]) rfl
  · exact (write_serializes_schema_and_values (Value.vint 3)
      ⟨[("name", Value.vstr "demo")], []⟩ ⟨[], []⟩ ⟨[], []⟩ ⟨[], []⟩ ⟨[], []⟩ ⟨[], []⟩).2.2.2.2
      [("extra", Value.vint 1)] [] [] [] [] []

/-- The process filesystem as seen by `update_version_files`: file path to
optional file contents. -/
def FS : Type := String → Option String

/-- Writing a file (`copyfile` / `file_expander` output / `rename` target). -/
def fsSet (fs : FS) (p c : String) : FS := fun q => if q = p then some c else fs q

/-- Removing a file (`Path.unlink` / `rename` source). -/
def fsDel (fs : FS) (p : String) : FS := fun q => if q = p then none else fs q

/-- The backup path `Path(str(file_path) + '.orig')`
(`src/vjer/utils.py:526`). -/
def backupName (p : String) : String := p ++ ".orig"

/-- One iteration of the update loop of `update_version_files`
(`src/vjer/utils.py:533-545`, non-reset branch): back the file up to
`<file>.orig`, then rewrite the file with the expansion of the backup
(`file_expander(file_orig, file_path, ...)`, plus the Chart.yaml version
rewrite) — abstracted as the transformation `tr` of the path and original
contents.  A missing file would crash `chmod`; it is left unchanged here and
excluded by hypothesis. -/
def updateOne (tr : String → String → String) (fs : FS) (p : String) : FS :=
  match fs p with
  | some c => fsSet (fsSet fs (backupName p) c) p (tr p c)
  | none => fs

/-- One iteration of the reset loop of `update_version_files`
(`src/vjer/utils.py:527-532`, reset branch): when the backup exists, unlink
the file and rename the backup over it; otherwise do nothing. -/
def resetOne (fs : FS) (p : String) : FS :=
  match fs (backupName p) with
  | some c => fsDel (fsSet (fsDel fs p) p c) (backupName p)
  | none => fs

/-- `update_version_files()` over the resolved version-files list. -/
def updateVersionFiles (tr : String → String → String) (files : List String) (fs : FS) : FS :=
  files.foldl (updateOne tr) fs

/-- `update_version_files(reset=True)` over the resolved version-files
list. -/
def resetVersionFiles (files : List String) (fs : FS) : FS :=
  files.foldl resetOne fs

/-- A path never equals its own backup path (it is five characters
shorter). -/
theorem backupName_ne_self (p : String) : p ≠ backupName p := by
  intro h
  have hl := congrArg String.length h
  rw [backupName, String.length_append, show (".orig").length = 5 from rfl] at hl
  omega

/-- Backup paths of distinct files are distinct. -/
theorem backupName_inj {p q : String} (h : backupName p = backupName q) : p = q := by
  have h2 := congrArg String.data h
  simp only [backupName, String.data_append] at h2
  exact String.ext (List.append_cancel_right h2)

/-- `updateOne` touches only the file and its backup. -/
theorem updateOne_not_touched (tr : String → String → String) (fs : FS) (p q : String)
    (h1 : q ≠ p) (h2 : q ≠ backupName p) : updateOne tr fs p q = fs q := by
  unfold updateOne
  cases fs p with
  | none => rfl
  | some c => simp [fsSet, h1, h2]

/-- `resetOne` touches only the file and its backup. -/
theorem resetOne_not_touched (fs : FS) (p q : String)
    (h1 : q ≠ p) (h2 : q ≠ backupName p) : resetOne fs p q = fs q := by
  unfold resetOne
  cases fs (backupName p) with
  | none => rfl
  | some c => simp [fsDel, fsSet, h1, h2]

/-- The update pass leaves any path that is neither a listed file nor the
backup of one unchanged. -/
theorem updateVF_not_touched (tr : String → String → String) :
    ∀ (files : List String) (fs : FS) (q : String),
      (∀ r ∈ files, q ≠ r ∧ q ≠ backupName r) →
      updateVersionFiles tr files fs q = fs q := by
  intro files
  induction files with
  | nil => intro fs q _; rfl
  | cons r rest ih =>
    intro fs q h
    show updateVersionFiles tr rest (updateOne tr fs r) q = fs q
    rw [ih (updateOne tr fs r) q (fun x hx => h x (List.mem_cons_of_mem _ hx))]
    exact updateOne_not_touched tr fs r q (h r (List.mem_cons_self _ _)).1
      (h r (List.mem_cons_self _ _)).2

/-- The update pass is insensitive to the input filesystem on a key set `S`
disjoint from the listed files and their backups, outside `S`. -/
theorem updateVF_congr_outside (tr : String → String → String) (S : String → Prop) :
    ∀ (files : List String) (F G : FS),
      (∀ x, ¬ S x → F x = G x) →
      (∀ r ∈ files, ¬ S r ∧ ¬ S (backupName r)) →
      ∀ q, ¬ S q → updateVersionFiles tr files F q = updateVersionFiles tr files G q := by
  intro files
  induction files with
  | nil => intro F G hFG _ q hq; exact hFG q hq
  | cons r rest ih =>
    intro F G hFG hfiles q hq
    show updateVersionFiles tr rest (updateOne tr F r) q
      = updateVersionFiles tr rest (updateOne tr G r) q
    refine ih (updateOne tr F r) (updateOne tr G r) ?_ 
      (fun x hx => hfiles x (List.mem_cons_of_mem _ hx)) q hq
    intro x hx
    have hFr : F r = G r := hFG r (hfiles r (List.mem_cons_self _ _)).1
    unfold updateOne
    rw [hFr]
    cases G r with
    | none => exact hFG x hx
    | some c =>
      by_cases hxr : x = r
      · simp [fsSet, hxr]
      · by_cases hxb : x = backupName r
        · simp [fsSet, hxr, hxb]
        · simp only [fsSet, if_neg hxr, if_neg hxb]
          exact hFG x hx

/-- Full characterization of update-then-reset over a well-formed
version-file list: every listed file is restored to its original contents,
and the backup paths are gone. -/
theorem version_files_round_trip_strong (tr : String → String → String) :
    ∀ (files : List String) (fs : FS),
      files.Nodup →
      (∀ p ∈ files, (fs p).isSome = true) →
      (∀ p ∈ files, ∀ q ∈ files, q ≠ backupName p) →
      ∀ q, resetVersionFiles files (updateVersionFiles tr files fs) q
        = if files.any (fun p => backupName p == q) then none else fs q := by
  intro files
  induction files with
  | nil => intro fs _ _ _ q; rfl
  | cons p rest ih =>
    intro fs hnd hex hnb q
    obtain ⟨hp_rest, hnd_rest⟩ := List.nodup_cons.mp hnd
    obtain ⟨c, hc⟩ : ∃ c, fs p = some c :=
      Option.isSome_iff_exists.mp (hex p (List.mem_cons_self _ _))
    have hrp : ∀ r ∈ rest, r ≠ p := fun r hr he => hp_rest (he ▸ hr)
    have hr_nbp : ∀ r ∈ rest, r ≠ backupName p :=
      fun r hr => hnb p (List.mem_cons_self _ _) r (List.mem_cons_of_mem _ hr)
    have hp_nbr : ∀ r ∈ rest, p ≠ backupName r :=
      fun r hr => hnb r (List.mem_cons_of_mem _ hr) p (List.mem_cons_self _ _)
    have hbr_nbp : ∀ r ∈ rest, backupName r ≠ backupName p :=
      fun r hr he => hrp r hr (backupName_inj he)
    set A := updateOne tr fs p with hAdef
    have hAp : ∀ x, A x
        = if x = p then some (tr p c) else if x = backupName p then some c else fs x := by
      intro x
      rw [hAdef]
      unfold updateOne
      rw [hc]
      by_cases hx1 : x = p
      · simp [fsSet, hx1]
      · by_cases hx2 : x = backupName p
        · simp [fsSet, hx1, hx2]
        · simp [fsSet, hx1, hx2]
    have hAbp : A (backupName p) = some c := by
      rw [hAp]
      simp [(backupName_ne_self p).symm]
    have hXbp : updateVersionFiles tr rest A (backupName p) = some c := by
      rw [updateVF_not_touched tr rest A (backupName p)
        (fun r hr => ⟨fun he => (hr_nbp r hr) he.symm, fun he => (hbr_nbp r hr) he.symm⟩)]
      exact hAbp
    have hBval : ∀ x, resetOne A p x = if x = backupName p then none else fs x := by
      intro x
      unfold resetOne
      rw [hAbp]
      by_cases hx1 : x = backupName p
      · simp [fsDel, hx1]
      · by_cases hx2 : x = p
        · subst hx2
          simp only [fsDel, fsSet, if_neg hx1, if_pos rfl]
          exact hc.symm
        · simp only [fsDel, fsSet, if_neg hx1, if_neg hx2]
          rw [hAp]
          simp [hx1, hx2]
    have hcomm : resetOne (updateVersionFiles tr rest A) p
        = updateVersionFiles tr rest (resetOne A p) := by
      funext x
      have hL : resetOne (updateVersionFiles tr rest A) p x
          = if x = backupName p then none
            else if x = p then some c else updateVersionFiles tr rest A x := by
        unfold resetOne
        rw [hXbp]
        by_cases hx1 : x = backupName p
        · simp [fsDel, hx1]
        · by_cases hx2 : x = p
          · simp [fsDel, fsSet, hx1, hx2]
          · simp [fsDel, fsSet, hx1, hx2]
      rw [hL]
      by_cases hx1 : x = backupName p
      · rw [if_pos hx1]
        subst hx1
        rw [updateVF_not_touched tr rest _ (backupName p)
          (fun r hr => ⟨fun he => hr_nbp r hr he.symm, fun he => hbr_nbp r hr he.symm⟩)]
        rw [hBval]
        simp
      · rw [if_neg hx1]
        by_cases hx2 : x = p
        · rw [if_pos hx2]
          subst hx2
          rw [updateVF_not_touched tr rest _ x
            (fun r hr => ⟨fun he => hrp r hr he.symm, hp_nbr r hr⟩)]
          rw [hBval]
          rw [if_neg hx1]
          exact hc.symm
        · rw [if_neg hx2]
          rw [updateVF_congr_outside tr (fun y => y = p ∨ y = backupName p) rest
            (resetOne A p) A
            (fun y hy =>
              resetOne_not_touched A p y (fun he => hy (Or.inl he)) (fun he => hy (Or.inr he)))
            (fun r hr =>
              ⟨fun hS => hS.elim (fun he => hrp r hr he) (fun he => hr_nbp r hr he),
               fun hS => hS.elim (fun he => hp_nbr r hr he.symm) (fun he => hbr_nbp r hr he)⟩)
            x (fun hS => hS.elim hx2 hx1)]
    show resetVersionFiles rest (resetOne (updateVersionFiles tr rest A) p) q = _
    rw [hcomm]
    rw [show resetOne A p = (fun x => if x = backupName p then none else fs x) from funext hBval]
    rw [ih (fun x => if x = backupName p then none else fs x) hnd_rest
      (fun r hr => by
        simp only [if_neg (hr_nbp r hr)]
        exact hex r (List.mem_cons_of_mem _ hr))
      (fun a ha b hb => hnb a (List.mem_cons_of_mem _ ha) b (List.mem_cons_of_mem _ hb))
      q]
    rw [List.any_cons]
    by_cases h1 : rest.any (fun x => backupName x == q) = true
    · simp [h1]
    · by_cases h2 : q = backupName p
      · simp [Bool.not_eq_true] at h1
        simp [h1, h2]
      · have h3 : (backupName p == q) = false :=
          beq_eq_false_iff_ne.mpr (fun he => h2 he.symm)
        simp [Bool.not_eq_true] at h1
        simp [h1, h2, h3]

/-- Modelled from the spec: the single-step lifecycle `pre → execute → post`
with `always_post` guaranteed on every exit path is provided by batcave's
`Action.execute`, an external collaborator whose code is not under `src/`
(spec §4.3: "`always_post()`: runs on the exit path regardless of success or
failure").  `BuildStep.pre` calls `update_version_files()` and
`BuildStep.always_post` calls `update_version_files(reset=True)`
(`src/vjer/build.py:33-54`); the type-specific build body is abstracted as a
fallible filesystem transformation.  The returned flag records whether the
body succeeded. -/
def runBuildStep (tr : String → String → String) (files : List String)
    (body : FS → Except Unit FS) (fs : FS) : FS × Bool :=
  let fs1 := updateVersionFiles tr files fs
  match body fs1 with
  | .ok fs2 => (resetVersionFiles files fs2, true)
  | .error _ => (resetVersionFiles files fs1, false)

/-- Claim C6: for a step with a non-empty resolved `version_files` list (of
distinct paths, none of which is another's backup, all present on disk),
running `update_version_files()` and then `update_version_files(reset=True)`
restores every touched file to its original contents byte for byte; and
since the reset is invoked from `always_post` on the exit path of a build
step, the files are restored even when the step's main body failed. -/
theorem version_files_round_trip (tr : String → String → String)
    (files : List String) (fs : FS)
    (hnd : files.Nodup)
    (hex : ∀ p ∈ files, (fs p).isSome = true)
    (hnb : ∀ p ∈ files, ∀ q ∈ files, q ≠ backupName p) :
    (∀ p ∈ files, resetVersionFiles files (updateVersionFiles tr files fs) p = fs p)
    ∧ (∀ p ∈ files, (runBuildStep tr files (fun _ => .error ()) fs).1 p = fs p)
    ∧ (runBuildStep tr files (fun _ => .error ()) fs).2 = false := by
  have hrestore : ∀ p ∈ files,
      resetVersionFiles files (updateVersionFiles tr files fs) p = fs p := by
    intro p hp
    rw [version_files_round_trip_strong tr files fs hnd hex hnb p]
    have hany : files.any (fun x => backupName x == p) = false := by
      rw [List.any_eq_false]
      intro x hx hbeq
      exact hnb x hx p hp (eq_of_beq hbeq).symm
    rw [hany]
    rfl
  refine ⟨hrestore, ?_, rfl⟩
  intro p hp
  show resetVersionFiles files (updateVersionFiles tr files fs) p = fs p
  exact hrestore p hp

/-- Witness for C6: a helm chart file is patched and then restored to its
exact original contents, also on the failing-body path. -/
theorem version_files_round_trip_witness :
    resetVersionFiles ["Chart.yaml"]
        (updateVersionFiles (fun _ _ => "version: 9.9.9") ["Chart.yaml"]
          (fun q => if q = "Chart.yaml" then some "version: 0.0.0" else none))
        "Chart.yaml" = some "version: 0.0.0"
    ∧ (runBuildStep (fun _ _ => "version: 9.9.9") ["Chart.yaml"] (fun _ => .error ())
        (fun q => if q = "Chart.yaml" then some "version: 0.0.0" else none)).2 = false := by
  have h := version_files_round_trip (fun _ _ => "version: 9.9.9") ["Chart.yaml"]
    (fun q => if q = "Chart.yaml" then some "version: 0.0.0" else none)
    (by simp)
    (by
      intro p hp
      simp only [List.mem_singleton] at hp
      subst hp
      rfl)
    (by
      intro p hp q hq
      simp only [List.mem_singleton] at hp hq
      subst hp
      subst hq
      decide)
  refine ⟨?_, h.2.2⟩
  have h2 := h.1 "Chart.yaml" (List.mem_singleton.mpr rfl)
  rw [h2]
  rfl
